import Mathlib

/-!
Verification of the source-reassembly engine and buffer editor of the goblin
REPL (src/goblin.go). Lines of text are modelled as lists of characters
(`Line := List Char`); a buffer is a list of lines. The classifier
`separateCodeParts` (src/goblin.go:120-218) is embedded as a fold of a
per-line step function over an explicit classification state. Regular
expressions used by the Go code are embedded as the decidable matching
functions they denote on trimmed lines. Go `int` counters are embedded as
`Int`. The external formatter invoked by `:tidy` (go/format.Source) is an
external collaborator and is passed in as an explicit function argument.
-/

/-- A line of source text, as a list of characters. -/
abbrev Line := List Char

/-- Characters of a `String` literal, used to write concrete lines. -/
def chars (x : String) : List Char := x.data

/-- Whitespace as recognised by Go's strings.TrimSpace / unicode.IsSpace,
restricted to the ASCII range (the repository only ever feeds it ASCII
terminal input): space, tab, newline, vertical tab, form feed, carriage
return. -/
def isSpaceChar (c : Char) : Bool :=
  c = ' ' || c = '\t' || c = '\n' || c = '\x0b' || c = '\x0c' || c = '\x0d'

/-- Whitespace as matched by the regexp class \s in Go's regexp package:
[\t\n\f\r ] (note: no vertical tab, unlike unicode.IsSpace). -/
def isRegexSpace (c : Char) : Bool :=
  c = '\t' || c = '\n' || c = '\x0c' || c = '\x0d' || c = ' '

/-- Characters matched by the class [\w/.] of the single-line import
regexp `import\s+("?[\w/.]+"?)` at src/goblin.go:125: ASCII word
characters, slash and dot. -/
def importPathChar (c : Char) : Bool :=
  c.isAlphanum || c = '_' || c = '/' || c = '.'

/-- Leading-whitespace trim. -/
def trimLeft (l : List Char) : List Char := l.dropWhile isSpaceChar

/-- Embedding of Go strings.TrimSpace: drop leading and trailing
whitespace. -/
def trimSpace (l : List Char) : List Char :=
  ((trimLeft l).reverse.dropWhile isSpaceChar).reverse

/-- Embedding of Go strings.Split(s, "\n"): split on newline; the empty
string yields one empty piece. -/
def splitNl : List Char → List Line
  | [] => [[]]
  | c :: rest =>
      if c = '\n' then [] :: splitNl rest
      else match splitNl rest with
        | [] => [[c]]
        | piece :: pieces => (c :: piece) :: pieces

/-- Embedding of Go strings.Join(lines, "\n"). -/
def joinNl (lines : List Line) : List Char := List.intercalate ['\n'] lines

/-- A strings.Builder that only ever receives WriteString(line + "\n")
calls is modelled as the list of written lines; this converts it to the
built string. -/
def builderStr (entries : List Line) : List Char :=
  (entries.map (fun l => l ++ ['\n'])).flatten

/-- Embedding of the regexp `^import\s*\($` (src/goblin.go:126) as a match
on a trimmed line: the literal import keyword, optional whitespace, then a
single opening parenthesis ending the line. -/
def importGroupMatch : Line → Bool
  | 'i' :: 'm' :: 'p' :: 'o' :: 'r' :: 't' :: rest =>
      rest.dropWhile isRegexSpace = ['(']
  | _ => false

/-- Matching of the remainder after `import\s+` against the anchored
capture group `("?[\w/.]+"?)$`: an optional double quote, a nonempty run
of [\w/.] characters, an optional closing double quote, end of line. -/
def importSingleTail (r : Line) : Bool :=
  let r1 := match r with
    | '"' :: t => t
    | _ => r
  let w := r1.takeWhile importPathChar
  let rest := r1.dropWhile importPathChar
  decide (w ≠ [] ∧ (rest = [] ∨ rest = ['"']))

/-- Embedding of importSingleRegex.FindStringSubmatch (src/goblin.go:125,
regexp `^import\s+("?[\w/.]+"?)$`) on a trimmed line: when the line
matches, returns the text of the capture group (everything after the
keyword and its following whitespace, quotes included), as matches[1]
does in the Go code. -/
def importSingleCapture : Line → Option Line
  | 'i' :: 'm' :: 'p' :: 'o' :: 'r' :: 't' :: rest =>
      if rest.takeWhile isRegexSpace = [] then none
      else
        let r := rest.dropWhile isRegexSpace
        if importSingleTail r then some r else none
  | _ => none

/-- Match of the alternative `var` followed by regexp whitespace, part of
`^(var|const|type)\s+` (src/goblin.go:127). -/
def varKwMatch : Line → Bool
  | 'v' :: 'a' :: 'r' :: c :: _ => isRegexSpace c
  | _ => false

/-- Match of the alternative `const` followed by regexp whitespace. -/
def constKwMatch : Line → Bool
  | 'c' :: 'o' :: 'n' :: 's' :: 't' :: c :: _ => isRegexSpace c
  | _ => false

/-- Match of the alternative `type` followed by regexp whitespace. -/
def typeKwMatch : Line → Bool
  | 't' :: 'y' :: 'p' :: 'e' :: c :: _ => isRegexSpace c
  | _ => false

/-- Embedding of globalDeclStartRegex.MatchString, regexp
`^(var|const|type)\s+` (src/goblin.go:127), on a trimmed line. -/
def globalDeclMatch (l : Line) : Bool :=
  varKwMatch l || constKwMatch l || typeKwMatch l

/-- Embedding of funcDeclStartRegex.MatchString, regexp `^func\s+`
(src/goblin.go:128), on a trimmed line. -/
def funcDeclMatch : Line → Bool
  | 'f' :: 'u' :: 'n' :: 'c' :: c :: _ => isRegexSpace c
  | _ => false

/-- Embedding of strings.HasSuffix(line, "(") (src/goblin.go:170). -/
def hasSuffixParen (l : Line) : Bool := l.getLast? = some '('

/-- strings.Count(line, "(") - strings.Count(line, ")"), the parenthesis
balance contribution of one raw line (src/goblin.go:150-151,173-174). -/
def parenDelta (line : Line) : Int :=
  (line.count '(' : Int) - (line.count ')' : Int)

/-- strings.Count(line, "{") - strings.Count(line, "}"), the brace
balance contribution of one raw line (src/goblin.go:196-197). -/
def braceDelta (line : Line) : Int :=
  (line.count '{' : Int) - (line.count '}' : Int)

/-- The classification state of separateCodeParts (src/goblin.go:120-134):
the three output builders (userImportsBuilder, topLevelDeclarationsBuilder,
statementsBuilder, each modelled as the list of lines written to it) plus
the mode flags inImportBlock, inGlobalDeclBlock, inFuncDecl and the shared
counter braceCount (a Go int, embedded as Int). -/
structure PartState where
  userImports : List Line
  topLevelDeclarations : List Line
  statements : List Line
  inImportBlock : Bool
  inGlobalDeclBlock : Bool
  inFuncDecl : Bool
  braceCount : Int
deriving DecidableEq, Repr

/-- The state at the top of separateCodeParts: empty builders, all flags
false, braceCount zero. -/
def initState : PartState :=
  { userImports := []
    topLevelDeclarations := []
    statements := []
    inImportBlock := false
    inGlobalDeclBlock := false
    inFuncDecl := false
    braceCount := 0 }

/-- One iteration of the loop body of separateCodeParts
(src/goblin.go:135-215), faithful to the branch order of the source:
top-level blank skip; import-group opener; inside-import-block handling;
single-line import; var/const/type start (single line or group opener);
inside-declaration-block handling; func start; inside-function handling;
remaining nonblank lines to statements. Matches are performed on the
trimmed line, counts on the raw line, and emitted lines are raw except for
the single-line import, which emits a tab followed by the capture. -/
def processLine (st : PartState) (line : Line) : PartState :=
  let trimmedLine := trimSpace line
  if trimmedLine = [] ∧ st.inImportBlock = false ∧ st.inGlobalDeclBlock = false ∧
      st.inFuncDecl = false then
    st
  else if importGroupMatch trimmedLine = true then
    { st with inImportBlock := true, braceCount := 1 }
  else if st.inImportBlock = true then
    let bc := st.braceCount + parenDelta line
    if bc ≤ 0 then { st with inImportBlock := false, braceCount := 0 }
    else { st with braceCount := bc, userImports := st.userImports ++ [line] }
  else if (importSingleCapture trimmedLine).isSome then
    { st with userImports :=
        st.userImports ++ ['\t' :: (importSingleCapture trimmedLine).getD []] }
  else if st.inFuncDecl = false ∧ st.inImportBlock = false ∧
      globalDeclMatch trimmedLine = true then
    if hasSuffixParen trimmedLine = true then
      { st with inGlobalDeclBlock := true
                topLevelDeclarations := st.topLevelDeclarations ++ [line]
                braceCount := st.braceCount + parenDelta line }
    else
      { st with topLevelDeclarations := st.topLevelDeclarations ++ [line] }
  else if st.inGlobalDeclBlock = true then
    let bc := st.braceCount + parenDelta line
    if bc ≤ 0 then
      { st with topLevelDeclarations := st.topLevelDeclarations ++ [line]
                inGlobalDeclBlock := false
                braceCount := 0 }
    else
      { st with topLevelDeclarations := st.topLevelDeclarations ++ [line]
                braceCount := bc }
  else if st.inImportBlock = false ∧ st.inGlobalDeclBlock = false ∧
      funcDeclMatch trimmedLine = true then
    { st with inFuncDecl := true
              topLevelDeclarations := st.topLevelDeclarations ++ [line]
              braceCount := st.braceCount + braceDelta line }
  else if st.inFuncDecl = true then
    let bc := st.braceCount + braceDelta line
    if bc ≤ 0 then
      { st with topLevelDeclarations := st.topLevelDeclarations ++ [line]
                inFuncDecl := false
                braceCount := 0 }
    else
      { st with topLevelDeclarations := st.topLevelDeclarations ++ [line]
                braceCount := bc }
  else if trimmedLine ≠ [] then
    { st with statements := st.statements ++ [line] }
  else st

/-- The loop of separateCodeParts over a sequence of lines, threading the
classification state. -/
def processLines (st : PartState) (lines : List Line) : PartState :=
  lines.foldl processLine st

/-- separateCodeParts on an already-split sequence of lines, from the
initial state. -/
def separateLines (lines : List Line) : PartState :=
  processLines initState lines

/-- Embedding of separateCodeParts (src/goblin.go:120-218): the function
splits its string argument on newlines and runs the classifier loop. The
three result strings of the Go function are builderStr of the three
builder fields of the result. -/
def separateCodeParts (code : List Char) : PartState :=
  separateLines (splitNl code)

/-- The same classification state with the three output builders emptied;
the control part (mode flags and braceCount) is kept. -/
def resetB (st : PartState) : PartState :=
  { st with userImports := [], topLevelDeclarations := [], statements := [] }

/-- Prepend the builder contents of one state to those of another, keeping
the control part of the second. -/
def mergeB (st r : PartState) : PartState :=
  { r with
      userImports := st.userImports ++ r.userImports
      topLevelDeclarations := st.topLevelDeclarations ++ r.topLevelDeclarations
      statements := st.statements ++ r.statements }

theorem resetB_mergeB (st r : PartState) : resetB (mergeB st r) = resetB r := rfl

theorem mergeB_assoc (a b c : PartState) :
    mergeB (mergeB a b) c = mergeB a (mergeB b c) := by
  simp [mergeB, List.append_assoc]

/-- The step function never reads the builders: processing a line from a
state equals processing it from the builder-free state and prepending the
old builders. -/
theorem processLine_frame (st : PartState) (line : Line) :
    processLine st line = mergeB st (processLine (resetB st) line) := by
  unfold processLine
  dsimp only [resetB]
  by_cases h1 : trimSpace line = [] ∧ st.inImportBlock = false ∧
      st.inGlobalDeclBlock = false ∧ st.inFuncDecl = false
  · simp only [if_pos h1]; simp [mergeB]
  simp only [if_neg h1]
  by_cases h2 : importGroupMatch (trimSpace line) = true
  · simp only [if_pos h2]; simp [mergeB]
  simp only [if_neg h2]
  by_cases h3 : st.inImportBlock = true
  · simp only [if_pos h3]
    by_cases h3a : st.braceCount + parenDelta line ≤ 0
    · simp only [if_pos h3a]; simp [mergeB]
    · simp only [if_neg h3a]; simp [mergeB]
  simp only [if_neg h3]
  by_cases h4 : (importSingleCapture (trimSpace line)).isSome = true
  · simp only [if_pos h4]; simp [mergeB]
  simp only [if_neg h4]
  by_cases h5 : st.inFuncDecl = false ∧ st.inImportBlock = false ∧
      globalDeclMatch (trimSpace line) = true
  · simp only [if_pos h5]
    by_cases h5a : hasSuffixParen (trimSpace line) = true
    · simp only [if_pos h5a]; simp [mergeB]
    · simp only [if_neg h5a]; simp [mergeB]
  simp only [if_neg h5]
  by_cases h6 : st.inGlobalDeclBlock = true
  · simp only [if_pos h6]
    by_cases h6a : st.braceCount + parenDelta line ≤ 0
    · simp only [if_pos h6a]; simp [mergeB]
    · simp only [if_neg h6a]; simp [mergeB]
  simp only [if_neg h6]
  by_cases h7 : st.inImportBlock = false ∧ st.inGlobalDeclBlock = false ∧
      funcDeclMatch (trimSpace line) = true
  · simp only [if_pos h7]; simp [mergeB]
  simp only [if_neg h7]
  by_cases h8 : st.inFuncDecl = true
  · simp only [if_pos h8]
    by_cases h8a : st.braceCount + braceDelta line ≤ 0
    · simp only [if_pos h8a]; simp [mergeB]
    · simp only [if_neg h8a]; simp [mergeB]
  simp only [if_neg h8]
  by_cases h9 : trimSpace line ≠ []
  · simp only [if_pos h9]; simp [mergeB]
  · simp only [if_neg h9]; simp [mergeB]

/-- Frame property of the whole loop: builders accumulated so far are
carried through untouched, and the control evolution is independent of
them. -/
theorem processLines_frame (st : PartState) (lines : List Line) :
    processLines st lines = mergeB st (processLines (resetB st) lines) := by
  induction lines generalizing st with
  | nil =>
      show st = mergeB st (resetB st)
      simp [mergeB, resetB]
  | cons l ls ih =>
      show processLines (processLine st l) ls =
        mergeB st (processLines (processLine (resetB st) l) ls)
      rw [ih (processLine st l), processLine_frame st l, resetB_mergeB, mergeB_assoc,
        ← ih (processLine (resetB st) l)]

theorem processLines_append (st : PartState) (xs ys : List Line) :
    processLines st (xs ++ ys) = processLines (processLines st xs) ys := by
  unfold processLines
  exact List.foldl_append processLine st xs ys

theorem trimSpace_sandwich (c d : Char) (l : List Char)
    (hc : isSpaceChar c = false) (hd : isSpaceChar d = false) :
    trimSpace (c :: (l ++ [d])) = c :: (l ++ [d]) := by
  unfold trimSpace trimLeft
  rw [List.dropWhile_cons]
  simp only [hc, Bool.false_eq_true, if_false]
  rw [show (c :: (l ++ [d])).reverse = d :: (l.reverse ++ [c]) by simp]
  rw [List.dropWhile_cons]
  simp [hd]

theorem importPathChar_not_space (c : Char) (h : importPathChar c = true) :
    isSpaceChar c = false := by
  by_contra hs
  rw [Bool.not_eq_false] at hs
  simp only [isSpaceChar, Bool.or_eq_true, decide_eq_true_eq] at hs
  rcases hs with ((((h1 | h1) | h1) | h1) | h1) | h1 <;> subst h1 <;>
    exact absurd h (by decide)

/-- The raw buffer line `import "p"` for a path p. -/
def importLineOf (p : List Char) : Line :=
  'i' :: 'm' :: 'p' :: 'o' :: 'r' :: 't' :: ' ' :: '"' :: (p ++ ['"'])

theorem takeWhile_path_append (p : List Char)
    (hp : ∀ c ∈ p, importPathChar c = true) :
    (p ++ ['"']).takeWhile importPathChar = p := by
  induction p with
  | nil => decide
  | cons a t ih =>
      have ha : importPathChar a = true := hp a (by simp)
      simp only [List.cons_append, List.takeWhile_cons, ha, if_true]
      rw [ih (fun c hc => hp c (by simp [hc]))]

theorem dropWhile_path_append (p : List Char)
    (hp : ∀ c ∈ p, importPathChar c = true) :
    (p ++ ['"']).dropWhile importPathChar = ['"'] := by
  induction p with
  | nil => decide
  | cons a t ih =>
      have ha : importPathChar a = true := hp a (by simp)
      simp only [List.cons_append, List.dropWhile_cons, ha, if_true]
      exact ih (fun c hc => hp c (by simp [hc]))

theorem trimSpace_importLineOf (p : List Char) :
    trimSpace (importLineOf p) = importLineOf p := by
  have h := trimSpace_sandwich 'i' '"'
    ('m' :: 'p' :: 'o' :: 'r' :: 't' :: ' ' :: '"' :: p) (by decide) (by decide)
  simpa [importLineOf] using h

theorem importSingleCapture_importLineOf (p : List Char) (hne : p ≠ [])
    (hp : ∀ c ∈ p, importPathChar c = true) :
    importSingleCapture (importLineOf p) = some ('"' :: (p ++ ['"'])) := by
  have hsp : isRegexSpace ' ' = true := by decide
  have hq : isRegexSpace '"' = false := by decide
  unfold importLineOf importSingleCapture
  simp only [List.takeWhile_cons, List.dropWhile_cons, hsp, hq, if_true,
    Bool.false_eq_true, if_false]
  simp only [importSingleTail, takeWhile_path_append p hp, dropWhile_path_append p hp]
  simp [hne]

theorem importGroupMatch_importLineOf (p : List Char) :
    importGroupMatch (importLineOf p) = false := by
  have hsp : isRegexSpace ' ' = true := by decide
  have hq : isRegexSpace '"' = false := by decide
  have hqp : ('"' : Char) ≠ '(' := by decide
  unfold importLineOf importGroupMatch
  simp [List.dropWhile_cons, hsp, hq, hqp]

theorem processLine_importLine (st : PartState) (p : List Char)
    (hi : st.inImportBlock = false) (hg : st.inGlobalDeclBlock = false)
    (hf : st.inFuncDecl = false)
    (hne : p ≠ []) (hp : ∀ c ∈ p, importPathChar c = true) :
    processLine st (importLineOf p) =
      { st with userImports := st.userImports ++ ['\t' :: '"' :: (p ++ ['"'])] } := by
  have htrim := trimSpace_importLineOf p
  have hcap := importSingleCapture_importLineOf p hne hp
  have hgrp := importGroupMatch_importLineOf p
  unfold processLine
  rw [htrim]
  rw [if_neg (by simp [importLineOf])]
  rw [if_neg (by simp [hgrp])]
  rw [if_neg (by simp [hi])]
  rw [if_pos (by simp [hcap])]
  simp [hcap]

theorem processLines_importLines (st : PartState) (paths : List (List Char))
    (hi : st.inImportBlock = false) (hg : st.inGlobalDeclBlock = false)
    (hf : st.inFuncDecl = false)
    (hp : ∀ p ∈ paths, p ≠ [] ∧ ∀ c ∈ p, importPathChar c = true) :
    processLines st (paths.map importLineOf) =
      { st with userImports :=
          st.userImports ++ paths.map (fun p => '\t' :: '"' :: (p ++ ['"'])) } := by
  induction paths generalizing st with
  | nil =>
      show st = _
      simp
  | cons p ps ih =>
      obtain ⟨hne, hchars⟩ := hp p (by simp)
      have h1 := processLine_importLine st p hi hg hf hne hchars
      show processLines (processLine st (importLineOf p)) (ps.map importLineOf) = _
      rw [h1]
      rw [ih { st with userImports := st.userImports ++ ['\t' :: '"' :: (p ++ ['"'])] }
        hi hg hf (fun q hq => hp q (by simp [hq]))]
      simp

/-- C1: a buffer whose lines are all of the single-line form import "X"
(nonempty paths over [\w/.]) partitions into exactly one Import-block
entry per line, each the quoted path re-indented with one leading tab
(not the raw line), with Declarations and Statements both empty. -/
theorem import_only_buffer_partition (paths : List (List Char))
    (hp : ∀ p ∈ paths, p ≠ [] ∧ ∀ c ∈ p, importPathChar c = true) :
    (separateLines (paths.map importLineOf)).userImports =
        paths.map (fun p => '\t' :: '"' :: (p ++ ['"'])) ∧
    (separateLines (paths.map importLineOf)).topLevelDeclarations = [] ∧
    (separateLines (paths.map importLineOf)).statements = [] := by
  unfold separateLines
  rw [processLines_importLines initState paths rfl rfl rfl hp]
  simp [initState]

/-- Witness for C1 at the concrete two-line buffer whose lines are the
single-line imports of the paths fmt and os. -/
theorem import_only_buffer_partition_witness :
    (separateLines [importLineOf (chars ("fmt")), importLineOf (chars ("os"))]).userImports =
        ['\t' :: '"' :: (chars ("fmt") ++ ['"']), '\t' :: '"' :: (chars ("os") ++ ['"'])] ∧
    (separateLines [importLineOf (chars ("fmt")), importLineOf (chars ("os"))]).topLevelDeclarations = [] ∧
    (separateLines [importLineOf (chars ("fmt")), importLineOf (chars ("os"))]).statements = [] :=
  import_only_buffer_partition [chars ("fmt"), chars ("os")] (by decide)

/-- Default-mode control state of the classifier: no block of any kind is
open and the balance counter is zero (the state in which
separateCodeParts starts and to which it returns after a closed block). -/
def DefaultCtl (st : PartState) : Prop :=
  st.inImportBlock = false ∧ st.inGlobalDeclBlock = false ∧ st.inFuncDecl = false ∧
    st.braceCount = 0

/-- Opener line of a var ( declaration group, as the classifier tests it:
the trimmed line matches the var alternative of the declaration-start
regexp and ends with an opening parenthesis. -/
def varGroupOpen (l : Line) : Bool :=
  varKwMatch (trimSpace l) && hasSuffixParen (trimSpace l)

/-- Total parenthesis balance of a list of raw lines. -/
def groupBal (g : List Line) : Int := (g.map parenDelta).sum

theorem groupBal_nil : groupBal [] = 0 := rfl

theorem groupBal_cons (l : Line) (g : List Line) :
    groupBal (l :: g) = parenDelta l + groupBal g := by
  simp [groupBal]

/-- A line that stays inside an open declaration group when the classifier
sees it: its trimmed form matches neither the import-group opener, nor the
single-line import pattern, nor a var/const/type declaration start (each of
those patterns is tested before the inside-declaration-block branch in
separateCodeParts and would divert the line). -/
def bodySafeLine (l : Line) : Bool :=
  !importGroupMatch (trimSpace l) && (importSingleCapture (trimSpace l)).isNone &&
    !globalDeclMatch (trimSpace l)

theorem varKwMatch_shape (l : Line) (h : varKwMatch l = true) :
    ∃ c rest, l = 'v' :: 'a' :: 'r' :: c :: rest ∧ isRegexSpace c = true := by
  unfold varKwMatch at h
  split at h
  next c rest => exact ⟨c, rest, rfl, h⟩
  next => exact absurd h (by simp)

theorem processLine_inDeclBlock (st : PartState) (l : Line)
    (hi : st.inImportBlock = false) (hg : st.inGlobalDeclBlock = true)
    (hsafe : bodySafeLine l = true) :
    processLine st l =
      if st.braceCount + parenDelta l ≤ 0 then
        { st with topLevelDeclarations := st.topLevelDeclarations ++ [l],
                  inGlobalDeclBlock := false, braceCount := 0 }
      else
        { st with topLevelDeclarations := st.topLevelDeclarations ++ [l],
                  braceCount := st.braceCount + parenDelta l } := by
  have h2 : importGroupMatch (trimSpace l) = false := by
    revert hsafe; unfold bodySafeLine
    cases importGroupMatch (trimSpace l) <;> simp
  have h4 : (importSingleCapture (trimSpace l)).isSome = false := by
    revert hsafe; unfold bodySafeLine
    cases himp : importSingleCapture (trimSpace l) <;> simp
  have h5 : globalDeclMatch (trimSpace l) = false := by
    revert hsafe; unfold bodySafeLine
    cases globalDeclMatch (trimSpace l) <;> simp
  unfold processLine
  rw [if_neg (by simp [hg])]
  rw [if_neg (by simp [h2])]
  rw [if_neg (by simp [hi])]
  rw [if_neg (by simp [h4])]
  rw [if_neg (by simp [h5])]
  rw [if_pos hg]

theorem processLines_declBody (body : List Line) (st : PartState)
    (hi : st.inImportBlock = false) (hg : st.inGlobalDeclBlock = true)
    (hsafe : ∀ l ∈ body, bodySafeLine l = true)
    (hmid : ∀ k, k < body.length → 0 < st.braceCount + groupBal (body.take k))
    (hend : st.braceCount + groupBal body = 0)
    (hne : body ≠ []) :
    processLines st body =
      { st with topLevelDeclarations := st.topLevelDeclarations ++ body,
                inGlobalDeclBlock := false, braceCount := 0 } := by
  induction body generalizing st with
  | nil => exact absurd rfl hne
  | cons l rest ih =>
      have hstep := processLine_inDeclBlock st l hi hg (hsafe l (by simp))
      by_cases hrest : rest = []
      · subst hrest
        have hz : st.braceCount + parenDelta l ≤ 0 := by
          rw [groupBal_cons, groupBal_nil] at hend
          omega
        show processLines (processLine st l) [] = _
        rw [hstep, if_pos hz]
        rfl
      · have hpos : 0 < st.braceCount + parenDelta l := by
          have h1 := hmid 1 (by cases rest with
            | nil => exact absurd rfl hrest
            | cons a t => simp)
          rw [List.take_succ_cons, List.take_zero] at h1
          rw [groupBal_cons, groupBal_nil] at h1
          omega
        have hnle : ¬ st.braceCount + parenDelta l ≤ 0 := by omega
        have hih := ih
          { st with
              topLevelDeclarations := st.topLevelDeclarations ++ [l]
              braceCount := st.braceCount + parenDelta l }
          hi hg (fun x hx => hsafe x (by simp [hx]))
          (fun k hk => by
            have hh := hmid (k + 1) (by simpa using Nat.succ_lt_succ hk)
            rw [List.take_succ_cons, groupBal_cons] at hh
            simpa [add_assoc] using hh)
          (by rw [groupBal_cons] at hend; simpa [add_assoc] using hend)
          hrest
        show processLines (processLine st l) rest = _
        rw [hstep, if_neg hnle, hih]
        simp

theorem processLine_varGroupOpen (st : PartState) (l : Line)
    (hctl : DefaultCtl st) (hopen : varGroupOpen l = true) :
    processLine st l =
      { st with topLevelDeclarations := st.topLevelDeclarations ++ [l],
                inGlobalDeclBlock := true,
                braceCount := parenDelta l } := by
  obtain ⟨hi, hg, hf, hb⟩ := hctl
  have hv : varKwMatch (trimSpace l) = true := by
    revert hopen; unfold varGroupOpen
    cases varKwMatch (trimSpace l) <;> simp
  have hsuf : hasSuffixParen (trimSpace l) = true := by
    revert hopen; unfold varGroupOpen
    cases hasSuffixParen (trimSpace l) <;> simp
  obtain ⟨c, rest, hshape, hcsp⟩ := varKwMatch_shape _ hv
  have hne : trimSpace l ≠ [] := by rw [hshape]; simp
  have hgrp : importGroupMatch (trimSpace l) = false := by rw [hshape]; rfl
  have hcap : importSingleCapture (trimSpace l) = none := by rw [hshape]; rfl
  have hgd : globalDeclMatch (trimSpace l) = true := by
    simp [globalDeclMatch, hv]
  unfold processLine
  rw [if_neg (by simp [hne])]
  rw [if_neg (by simp [hgrp])]
  rw [if_neg (by simp [hi])]
  rw [if_neg (by simp [hcap])]
  rw [if_pos ⟨hf, hi, hgd⟩]
  rw [if_pos hsuf]
  rw [hb]
  simp

theorem processLines_varGroup (st : PartState) (g0 : Line) (body : List Line)
    (hctl : DefaultCtl st)
    (hopen : varGroupOpen g0 = true)
    (hsafe : ∀ l ∈ body, bodySafeLine l = true)
    (hmid : ∀ k, k < body.length → 0 < parenDelta g0 + groupBal (body.take k))
    (hend : parenDelta g0 + groupBal body = 0)
    (hne : body ≠ []) :
    processLines st (g0 :: body) =
      { st with topLevelDeclarations := st.topLevelDeclarations ++ (g0 :: body) } := by
  obtain ⟨hi, hg, hf, hb⟩ := hctl
  have h0 := processLine_varGroupOpen st g0 ⟨hi, hg, hf, hb⟩ hopen
  have hbody := processLines_declBody body
    { st with
        topLevelDeclarations := st.topLevelDeclarations ++ [g0]
        inGlobalDeclBlock := true
        braceCount := parenDelta g0 }
    hi rfl hsafe hmid hend hne
  show processLines (processLine st g0) body = _
  rw [h0, hbody]
  simp [hg, hb]

/-- C2 (amended): in any buffer pre ++ group ++ post in which the
classifier is back in default mode after pre, a balanced var ( ... ) group
whose lines after the opener match neither the import-group opener, nor
the single-line import pattern, nor a var/const/type declaration start, is
reproduced verbatim and in order in the Declarations block, and
contributes nothing to the Statements (or Import) block. -/
theorem var_group_partition (pre : List Line) (g0 : Line) (body post : List Line)
    (hpre : DefaultCtl (separateLines pre))
    (hopen : varGroupOpen g0 = true)
    (hsafe : ∀ l ∈ body, bodySafeLine l = true)
    (hmid : ∀ k, k < body.length → 0 < parenDelta g0 + groupBal (body.take k))
    (hend : parenDelta g0 + groupBal body = 0)
    (hne : body ≠ []) :
    (separateLines (pre ++ (g0 :: body) ++ post)).topLevelDeclarations =
        (separateLines pre).topLevelDeclarations ++ (g0 :: body) ++
          (separateLines post).topLevelDeclarations ∧
    (separateLines (pre ++ (g0 :: body) ++ post)).statements =
        (separateLines pre).statements ++ (separateLines post).statements ∧
    (separateLines (pre ++ (g0 :: body) ++ post)).userImports =
        (separateLines pre).userImports ++ (separateLines post).userImports := by
  have hsplit : separateLines (pre ++ (g0 :: body) ++ post) =
      processLines (processLines (separateLines pre) (g0 :: body)) post := by
    unfold separateLines
    rw [processLines_append, processLines_append]
  rw [hsplit]
  rw [processLines_varGroup (separateLines pre) g0 body hpre hopen hsafe hmid hend hne]
  rw [processLines_frame
    { separateLines pre with
        topLevelDeclarations :=
          (separateLines pre).topLevelDeclarations ++ (g0 :: body) }
    post]
  have hreset : resetB
      { separateLines pre with
          topLevelDeclarations :=
            (separateLines pre).topLevelDeclarations ++ (g0 :: body) } =
      initState := by
    obtain ⟨h1, h2, h3, h4⟩ := hpre
    simp [resetB, initState, h1, h2, h3, h4]
  rw [hreset]
  simp [mergeB, List.append_assoc, separateLines]

/-- Counterexample to C2 as stated: the buffer is exactly one balanced
var ( ... ) group (opener line, interior line, closing line; parenthesis
prefix balances 1, 1, total 0), but the interior line matches the
single-line import pattern, so partition diverts it to the Import block:
the Declarations block does not reproduce the group verbatim. -/
theorem var_group_partition_counterexample :
    varGroupOpen (chars ("var (")) = true ∧
    groupBal [chars ("var (")] = 1 ∧
    groupBal [chars ("var ("), chars ("import \x22x\x22")] = 1 ∧
    groupBal [chars ("var ("), chars ("import \x22x\x22"), chars (")")] = 0 ∧
    ¬ (separateLines [chars ("var ("), chars ("import \x22x\x22"), chars (")")]).topLevelDeclarations
        = [chars ("var ("), chars ("import \x22x\x22"), chars (")")] ∧
    (separateLines [chars ("var ("), chars ("import \x22x\x22"), chars (")")]).topLevelDeclarations
        = [chars ("var ("), chars (")")] ∧
    (separateLines [chars ("var ("), chars ("import \x22x\x22"), chars (")")]).userImports
        = [chars ("\t\x22x\x22")] := by decide

/-- Witness for the amended C2 at the concrete buffer
["var (", "\tx = 1", ")", "y := 2"] (empty prefix, group of three lines,
one following statement line). -/
theorem var_group_partition_witness :
    (separateLines ([] ++ (chars ("var (") :: [chars ("\tx = 1"), chars (")")]) ++
        [chars ("y := 2")])).topLevelDeclarations =
      (separateLines []).topLevelDeclarations ++
        (chars ("var (") :: [chars ("\tx = 1"), chars (")")]) ++
        (separateLines [chars ("y := 2")]).topLevelDeclarations ∧
    (separateLines ([] ++ (chars ("var (") :: [chars ("\tx = 1"), chars (")")]) ++
        [chars ("y := 2")])).statements =
      (separateLines []).statements ++ (separateLines [chars ("y := 2")]).statements ∧
    (separateLines ([] ++ (chars ("var (") :: [chars ("\tx = 1"), chars (")")]) ++
        [chars ("y := 2")])).userImports =
      (separateLines []).userImports ++ (separateLines [chars ("y := 2")]).userImports :=
  var_group_partition [] (chars ("var (")) [chars ("\tx = 1"), chars (")")]
    [chars ("y := 2")] ⟨rfl, rfl, rfl, rfl⟩ (by decide) (by decide)
    (by decide) (by decide) (by decide)

/-- C3: partition is a function of the input line sequence alone (equal
inputs give equal Import, Declarations and Statements blocks; the
embedding is a pure function, so no other state can be read or written),
and the empty input sequence yields three empty blocks. -/
theorem partition_deterministic_and_empty :
    (∀ xs ys : List Line, xs = ys → separateLines xs = separateLines ys) ∧
    (separateLines []).userImports = [] ∧
    (separateLines []).topLevelDeclarations = [] ∧
    (separateLines []).statements = [] :=
  ⟨fun xs ys h => by rw [h], rfl, rfl, rfl⟩

/-- Witness for C3: the determinism component applied at a concrete
buffer. -/
theorem partition_deterministic_and_empty_witness :
    separateLines [chars ("x := 1")] = separateLines [chars ("x := 1")] :=
  partition_deterministic_and_empty.1 [chars ("x := 1")] [chars ("x := 1")] rfl

/-- Total number of lines emitted into the three blocks of a state. -/
def emitCount (st : PartState) : Nat :=
  st.userImports.length + st.topLevelDeclarations.length + st.statements.length

theorem processLine_userImports_growth (st : PartState) (line : Line) :
    ∃ t, (processLine st line).userImports = st.userImports ++ t :=
  ⟨(processLine (resetB st) line).userImports, by rw [processLine_frame st line]; rfl⟩

theorem processLine_topLevel_growth (st : PartState) (line : Line) :
    ∃ t, (processLine st line).topLevelDeclarations = st.topLevelDeclarations ++ t :=
  ⟨(processLine (resetB st) line).topLevelDeclarations,
    by rw [processLine_frame st line]; rfl⟩

theorem processLine_statements_growth (st : PartState) (line : Line) :
    ∃ t, (processLine st line).statements = st.statements ++ t :=
  ⟨(processLine (resetB st) line).statements, by rw [processLine_frame st line]; rfl⟩

theorem processLine_emitCount (st : PartState) (line : Line) :
    emitCount (processLine st line) = emitCount st ∨
      emitCount (processLine st line) = emitCount st + 1 := by
  unfold processLine
  by_cases h1 : trimSpace line = [] ∧ st.inImportBlock = false ∧
      st.inGlobalDeclBlock = false ∧ st.inFuncDecl = false
  · simp only [if_pos h1]; simp
  simp only [if_neg h1]
  by_cases h2 : importGroupMatch (trimSpace line) = true
  · simp only [if_pos h2]; left; rfl
  simp only [if_neg h2]
  by_cases h3 : st.inImportBlock = true
  · simp only [if_pos h3]
    by_cases h3a : st.braceCount + parenDelta line ≤ 0
    · simp only [if_pos h3a]; left; rfl
    · simp only [if_neg h3a]; right; simp [emitCount]; omega
  simp only [if_neg h3]
  by_cases h4 : (importSingleCapture (trimSpace line)).isSome = true
  · simp only [if_pos h4]; right; simp [emitCount]; omega
  simp only [if_neg h4]
  by_cases h5 : st.inFuncDecl = false ∧ st.inImportBlock = false ∧
      globalDeclMatch (trimSpace line) = true
  · simp only [if_pos h5]
    by_cases h5a : hasSuffixParen (trimSpace line) = true
    · simp only [if_pos h5a]; right; simp [emitCount]; omega
    · simp only [if_neg h5a]; right; simp [emitCount]; omega
  simp only [if_neg h5]
  by_cases h6 : st.inGlobalDeclBlock = true
  · simp only [if_pos h6]
    by_cases h6a : st.braceCount + parenDelta line ≤ 0
    · simp only [if_pos h6a]; right; simp [emitCount]; omega
    · simp only [if_neg h6a]; right; simp [emitCount]; omega
  simp only [if_neg h6]
  by_cases h7 : st.inImportBlock = false ∧ st.inGlobalDeclBlock = false ∧
      funcDeclMatch (trimSpace line) = true
  · simp only [if_pos h7]; right; simp [emitCount]; omega
  simp only [if_neg h7]
  by_cases h8 : st.inFuncDecl = true
  · simp only [if_pos h8]
    by_cases h8a : st.braceCount + braceDelta line ≤ 0
    · simp only [if_pos h8a]; right; simp [emitCount]; omega
    · simp only [if_neg h8a]; right; simp [emitCount]; omega
  simp only [if_neg h8]
  by_cases h9 : trimSpace line ≠ []
  · simp only [if_pos h9]; right; simp [emitCount]; omega
  · simp only [if_neg h9]; simp

theorem processLine_skip_iff (st : PartState) (line : Line) :
    emitCount (processLine st line) = emitCount st ↔
      ((trimSpace line = [] ∧ st.inImportBlock = false ∧
          st.inGlobalDeclBlock = false ∧ st.inFuncDecl = false) ∨
        importGroupMatch (trimSpace line) = true ∨
        (importGroupMatch (trimSpace line) = false ∧ st.inImportBlock = true ∧
          st.braceCount + parenDelta line ≤ 0)) := by
  unfold processLine
  by_cases h1 : trimSpace line = [] ∧ st.inImportBlock = false ∧
      st.inGlobalDeclBlock = false ∧ st.inFuncDecl = false
  · simp only [if_pos h1]
    simp [h1]
  simp only [if_neg h1]
  by_cases h2 : importGroupMatch (trimSpace line) = true
  · simp only [if_pos h2]
    constructor
    · intro _; exact Or.inr (Or.inl h2)
    · intro _; rfl
  simp only [if_neg h2]
  have h2f : importGroupMatch (trimSpace line) = false := by simpa using h2
  by_cases h3 : st.inImportBlock = true
  · simp only [if_pos h3]
    by_cases h3a : st.braceCount + parenDelta line ≤ 0
    · simp only [if_pos h3a]
      constructor
      · intro _; exact Or.inr (Or.inr ⟨h2f, h3, h3a⟩)
      · intro _; rfl
    · simp only [if_neg h3a]
      constructor
      · intro hc; exfalso; simp [emitCount] at hc
      · rintro (hd | hd | hd)
        · exact absurd hd h1
        · exact absurd hd h2
        · exact absurd hd.2.2 h3a
  simp only [if_neg h3]
  have hrhs : ¬ ((trimSpace line = [] ∧ st.inImportBlock = false ∧
      st.inGlobalDeclBlock = false ∧ st.inFuncDecl = false) ∨
      importGroupMatch (trimSpace line) = true ∨
      (importGroupMatch (trimSpace line) = false ∧ st.inImportBlock = true ∧
        st.braceCount + parenDelta line ≤ 0)) := by
    rintro (hd | hd | hd)
    · exact absurd hd h1
    · exact absurd hd h2
    · exact absurd hd.2.1 h3
  by_cases h4 : (importSingleCapture (trimSpace line)).isSome = true
  · simp only [if_pos h4]
    constructor
    · intro hc; exfalso; simp [emitCount] at hc
    · intro hd; exact absurd hd hrhs
  simp only [if_neg h4]
  by_cases h5 : st.inFuncDecl = false ∧ st.inImportBlock = false ∧
      globalDeclMatch (trimSpace line) = true
  · simp only [if_pos h5]
    by_cases h5a : hasSuffixParen (trimSpace line) = true
    · simp only [if_pos h5a]
      constructor
      · intro hc; exfalso; simp [emitCount] at hc
      · intro hd; exact absurd hd hrhs
    · simp only [if_neg h5a]
      constructor
      · intro hc; exfalso; simp [emitCount] at hc
      · intro hd; exact absurd hd hrhs
  simp only [if_neg h5]
  by_cases h6 : st.inGlobalDeclBlock = true
  · simp only [if_pos h6]
    by_cases h6a : st.braceCount + parenDelta line ≤ 0
    · simp only [if_pos h6a]
      constructor
      · intro hc; exfalso; simp [emitCount] at hc
      · intro hd; exact absurd hd hrhs
    · simp only [if_neg h6a]
      constructor
      · intro hc; exfalso; simp [emitCount] at hc
      · intro hd; exact absurd hd hrhs
  simp only [if_neg h6]
  by_cases h7 : st.inImportBlock = false ∧ st.inGlobalDeclBlock = false ∧
      funcDeclMatch (trimSpace line) = true
  · simp only [if_pos h7]
    constructor
    · intro hc; exfalso; simp [emitCount] at hc
    · intro hd; exact absurd hd hrhs
  simp only [if_neg h7]
  by_cases h8 : st.inFuncDecl = true
  · simp only [if_pos h8]
    by_cases h8a : st.braceCount + braceDelta line ≤ 0
    · simp only [if_pos h8a]
      constructor
      · intro hc; exfalso; simp [emitCount] at hc
      · intro hd; exact absurd hd hrhs
    · simp only [if_neg h8a]
      constructor
      · intro hc; exfalso; simp [emitCount] at hc
      · intro hd; exact absurd hd hrhs
  simp only [if_neg h8]
  by_cases h9 : trimSpace line ≠ []
  · simp only [if_pos h9]
    constructor
    · intro hc; exfalso; simp [emitCount] at hc
    · intro hd; exact absurd hd hrhs
  · exfalso
    refine h1 ⟨not_not.mp h9, ?_, ?_, ?_⟩
    · simpa using h3
    · simpa using h6
    · simpa using h8

theorem processLines_emitCount (st : PartState) (lines : List Line) :
    emitCount (processLines st lines) ≤ emitCount st + lines.length := by
  induction lines generalizing st with
  | nil => simp [processLines]
  | cons l ls ih =>
      show emitCount (processLines (processLine st l) ls) ≤ _
      have h1 := ih (processLine st l)
      have h2 := processLine_emitCount st l
      simp only [List.length_cons]
      omega

/-- C9: each input line is emitted into at most one of the three blocks
and at most once (the blocks only grow, and the total number of emitted
lines grows by at most one per input line; over a whole run it is bounded
by the number of input lines); the lines emitted nowhere are exactly the
top-level blank lines, the lines matching the import-group opener, and the
lines inside an import group whose updated parenthesis depth is not
positive (the group-closing lines). -/
theorem partition_bucket_exclusive (st : PartState) (line : Line) :
    (∃ t, (processLine st line).userImports = st.userImports ++ t) ∧
    (∃ t, (processLine st line).topLevelDeclarations = st.topLevelDeclarations ++ t) ∧
    (∃ t, (processLine st line).statements = st.statements ++ t) ∧
    emitCount (processLine st line) ≤ emitCount st + 1 ∧
    (emitCount (processLine st line) = emitCount st ↔
      ((trimSpace line = [] ∧ st.inImportBlock = false ∧
          st.inGlobalDeclBlock = false ∧ st.inFuncDecl = false) ∨
        importGroupMatch (trimSpace line) = true ∨
        (importGroupMatch (trimSpace line) = false ∧ st.inImportBlock = true ∧
          st.braceCount + parenDelta line ≤ 0))) ∧
    (∀ lines : List Line, emitCount (separateLines lines) ≤ lines.length) :=
  ⟨processLine_userImports_growth st line,
   processLine_topLevel_growth st line,
   processLine_statements_growth st line,
   by rcases processLine_emitCount st line with h | h <;> omega,
   processLine_skip_iff st line,
   fun lines => by
     have h := processLines_emitCount initState lines
     simpa [emitCount, initState, separateLines] using h⟩

/-- C10: the single-line import import "github.com/foo-bar" has a hyphen
in its quoted path, a character outside [\w/.], so the single-line import
pattern does not match and the line is classified into Statements, not
into the Import block. -/
theorem hyphen_import_to_statements :
    importSingleCapture (trimSpace (chars ("import \x22github.com/foo-bar\x22"))) = none ∧
    (separateLines [chars ("import \x22github.com/foo-bar\x22")]).userImports = [] ∧
    (separateLines [chars ("import \x22github.com/foo-bar\x22")]).topLevelDeclarations = [] ∧
    (separateLines [chars ("import \x22github.com/foo-bar\x22")]).statements =
      [chars ("import \x22github.com/foo-bar\x22")] := by decide

theorem eraseIdx_take_drop (l : List Line) (i : Nat) :
    l.take i ++ l.drop (i + 1) = l.eraseIdx i := by
  induction l generalizing i with
  | nil => simp
  | cons a t ih =>
      cases i with
      | zero => simp
      | succ j => simp [ih j]

theorem insertIdx_take_drop (l : List Line) (i : Nat) (h : i ≤ l.length) :
    l.take i ++ [[]] ++ l.drop i = l.insertIdx i ([] : Line) := by
  induction l generalizing i with
  | nil =>
      cases i with
      | zero => rfl
      | succ j => simp at h
  | cons a t ih =>
      cases i with
      | zero => rfl
      | succ j =>
          simp only [List.length_cons, Nat.succ_le_succ_iff] at h
          simp [List.insertIdx_succ_cons, ih j h]

theorem take_pred_eq_dropLast (l : List Line) :
    l.take (l.length - 1) = l.dropLast := by
  induction l with
  | nil => rfl
  | cons a t ih =>
      cases t with
      | nil => rfl
      | cons b u => simpa using ih

/-- Embedding of the :delete / :d branch of the interactive loop
(src/goblin.go:995-1028), for an already-parsed line number (the Atoi
failure branch is reported like an out-of-range number and changes
nothing). Inputs: the buffer, the pending replace-next-input target
(nextInputReplacesLine, 0 when off), the 1-based line number. Result: the
new buffer, the new replace target, and whether the delete happened (false
means the invalid-line-number report, with everything unchanged). -/
def deleteCommand (codeLines : List Line) (nextInputReplacesLine : Nat) (lineNum : Int) :
    List Line × Nat × Bool :=
  if lineNum < 1 ∨ lineNum > (codeLines.length : Int) then
    (codeLines, nextInputReplacesLine, false)
  else
    (codeLines.take (lineNum.toNat - 1) ++ codeLines.drop (lineNum.toNat - 1 + 1),
      if nextInputReplacesLine > 0 then 0 else nextInputReplacesLine,
      true)

/-- Embedding of the :insert / :i branch of the interactive loop
(src/goblin.go:965-981) for an already-parsed line number: valid range is
[1, length+1]; on success an empty line is inserted before the 1-based
position and the replace-next-input target is armed at that position. -/
def insertCommand (codeLines : List Line) (nextInputReplacesLine : Nat) (lineNum : Int) :
    List Line × Nat × Bool :=
  if lineNum < 1 ∨ lineNum > (codeLines.length : Int) + 1 then
    (codeLines, nextInputReplacesLine, false)
  else
    (codeLines.take (lineNum.toNat - 1) ++ [[]] ++ codeLines.drop (lineNum.toNat - 1),
      lineNum.toNat, true)

/-- Embedding of the :undo / :u branch of the interactive loop
(src/goblin.go:1035-1046): drop the last line when the buffer is
non-empty; otherwise leave it unchanged and show the nothing-to-undo
notice (the false result; the branch has no error path). -/
def undoCommand (codeLines : List Line) : List Line × Bool :=
  if codeLines.length > 0 then (codeLines.take (codeLines.length - 1), true)
  else (codeLines, false)

/-- Embedding of Go strings.Fields: maximal runs of non-whitespace
characters, splitting on unicode.IsSpace. -/
def fieldsAux : List Char → List Char → List (List Char)
  | [], acc => if acc = [] then [] else [acc.reverse]
  | c :: rest, acc =>
      if isSpaceChar c then
        if acc = [] then fieldsAux rest []
        else acc.reverse :: fieldsAux rest []
      else fieldsAux rest (c :: acc)

/-- strings.Fields(l). -/
def fieldsOf (l : List Char) : List (List Char) := fieldsAux l []

/-- The isCommand test of the interactive loop (src/goblin.go:868):
the field list is non-empty and its first field starts with a colon. -/
def isCommandFields : List (List Char) → Bool
  | (c :: _) :: _ => c = ':'
  | _ => false

/-- isCommand for a trimmed input line. -/
def isCommandLine (l : Line) : Bool := isCommandFields (fieldsOf l)

/-- The command words of the interactive loop's switch statement
(src/goblin.go:888-1114); any other input reaches the default branch. -/
def commandTokens : List (List Char) :=
  [chars (":quit"), chars (":exit"), chars (":bye"), chars (":q"),
   chars (":clear"), chars (":show"), chars (":list"), chars (":save"),
   chars (":load"), chars (":export"), chars (":edit"), chars (":insert"),
   chars (":i"), chars (":rename"), chars (":saveas"), chars (":delete"),
   chars (":d"), chars (":help"), chars (":undo"), chars (":u"),
   chars (":tidy"), chars (":run"), chars (":sys")]

/-- What the input-handling prologue of the interactive loop did with one
line of input. -/
inductive InputAction where
  | disarmed
  | replaced
  | skipped
  | command
  | appended
deriving DecidableEq, Repr

/-- Embedding of the input-handling prologue and default branch of the
interactive loop (src/goblin.go:856-881 and 1115-1120): in replace mode an
all-whitespace input disarms the mode and leaves the blank line in place;
a non-command input overwrites the armed line with the raw input and
disarms the mode; an empty field list is skipped; a known command word is
dispatched to the switch (its effect is modelled by the per-command
functions); anything else is appended to the buffer as raw input. -/
def processInput (codeLines : List Line) (nextInputReplacesLine : Nat) (input : Line) :
    List Line × Nat × InputAction :=
  if nextInputReplacesLine > 0 ∧ trimSpace input = [] then
    (codeLines, 0, InputAction.disarmed)
  else
    let flds := fieldsOf (trimSpace input)
    if nextInputReplacesLine > 0 ∧ isCommandFields flds = false then
      (codeLines.set (nextInputReplacesLine - 1) input, 0, InputAction.replaced)
    else if flds = [] then
      (codeLines, nextInputReplacesLine, InputAction.skipped)
    else if flds.headI ∈ commandTokens then
      (codeLines, nextInputReplacesLine, InputAction.command)
    else
      (codeLines ++ [input], nextInputReplacesLine, InputAction.appended)

/-- C8: undo on a non-empty buffer removes exactly the last line; on an
empty buffer it returns the buffer unchanged with the nothing-to-undo
notice flag (there is no error path in the handler). -/
theorem undo_spec (buf : List Line) :
    undoCommand buf = if buf = [] then (buf, false) else (buf.dropLast, true) := by
  unfold undoCommand
  by_cases h : buf = []
  · subst h; simp
  · rw [if_pos (by simpa [List.length_pos] using h), if_neg h,
      take_pred_eq_dropLast]

/-- Counterexample to the last clause of C6 as stated: deleting line 3 of
["a","b","c"] while a replace-next-input operation is pending for line 1
cancels that operation (the target becomes 0) even though position 1 is
still valid in the shortened buffer. -/
theorem delete_cancels_insert_counterexample :
    deleteCommand [chars ("a"), chars ("b"), chars ("c")] 1 3 =
      ([chars ("a"), chars ("b")], 0, true) ∧
    1 ≤ ([chars ("a"), chars ("b")] : List Line).length := by decide

/-- C6 (amended): delete is 1-based; out-of-range line numbers (below 1 or
above the length) fail and change nothing; otherwise exactly the addressed
line is removed and any pending insert-mode operation is cancelled
unconditionally (not only when its target became invalid). Includes the
two concrete instances of the claim. -/
theorem delete_spec (buf : List Line) (pending : Nat) (n : Int) :
    deleteCommand buf pending n =
      (if n < 1 ∨ n > (buf.length : Int) then (buf, pending, false)
       else (buf.eraseIdx (n.toNat - 1), 0, true)) ∧
    deleteCommand [chars ("a"), chars ("b"), chars ("c")] 0 2 =
      ([chars ("a"), chars ("c")], 0, true) ∧
    deleteCommand [chars ("a"), chars ("b"), chars ("c")] 0 5 =
      ([chars ("a"), chars ("b"), chars ("c")], 0, false) := by
  refine ⟨?_, by decide, by decide⟩
  unfold deleteCommand
  by_cases h : n < 1 ∨ n > (buf.length : Int)
  · rw [if_pos h, if_pos h]
  · rw [if_neg h, if_neg h, eraseIdx_take_drop]
    cases pending <;> simp

/-- C7: insert accepts exactly the range [1, length+1] (m is any number
outside it), inserts one empty line before the 1-based target position and
arms replace-next-input mode for that position; a next non-command
non-blank input overwrites the armed line with the raw input and disarms
the mode, while an empty next input leaves the buffer unchanged and
disarms it; and insert 1 followed by entering x := 1 on ["a","b"] yields
["x := 1","a","b"]. -/
theorem insert_replace_spec (buf : List Line) (pending : Nat) (input : Line) (n m : Int)
    (hn1 : 1 ≤ n) (hn2 : n ≤ (buf.length : Int) + 1)
    (hm : m < 1 ∨ m > (buf.length : Int) + 1)
    (hpend : 0 < pending) (hplen : pending ≤ buf.length)
    (hin : trimSpace input ≠ [])
    (hcmd : isCommandLine (trimSpace input) = false) :
    insertCommand buf pending n =
      (buf.insertIdx (n.toNat - 1) ([] : Line), n.toNat, true) ∧
    insertCommand buf pending m = (buf, pending, false) ∧
    processInput buf pending input =
      (buf.set (pending - 1) input, 0, InputAction.replaced) ∧
    processInput buf pending [] = (buf, 0, InputAction.disarmed) ∧
    processInput
      (insertCommand [chars ("a"), chars ("b")] 0 1).1
      (insertCommand [chars ("a"), chars ("b")] 0 1).2.1
      (chars ("x := 1")) =
      ([chars ("x := 1"), chars ("a"), chars ("b")], 0, InputAction.replaced) := by
  refine ⟨?_, ?_, ?_, ?_, by decide⟩
  · unfold insertCommand
    rw [if_neg (by omega)]
    rw [insertIdx_take_drop buf (n.toNat - 1) (by omega)]
  · unfold insertCommand
    rw [if_pos hm]
  · unfold processInput
    rw [if_neg (by simp [hin])]
    rw [if_pos ⟨hpend, by simpa [isCommandLine] using hcmd⟩]
  · unfold processInput
    rw [if_pos ⟨hpend, by decide⟩]

/-- Witness for C7 at buf = ["a","b"], pending = 1, input = "x := 1",
n = 1, m = 4. -/
theorem insert_replace_spec_witness :
    insertCommand [chars ("a"), chars ("b")] 1 1 =
      (([chars ("a"), chars ("b")] : List Line).insertIdx ((1 : Int).toNat - 1) ([] : Line),
        (1 : Int).toNat, true) ∧
    insertCommand [chars ("a"), chars ("b")] 1 4 = ([chars ("a"), chars ("b")], 1, false) ∧
    processInput [chars ("a"), chars ("b")] 1 (chars ("x := 1")) =
      (([chars ("a"), chars ("b")] : List Line).set (1 - 1) (chars ("x := 1")), 0,
        InputAction.replaced) ∧
    processInput [chars ("a"), chars ("b")] 1 [] =
      ([chars ("a"), chars ("b")], 0, InputAction.disarmed) ∧
    processInput
      (insertCommand [chars ("a"), chars ("b")] 0 1).1
      (insertCommand [chars ("a"), chars ("b")] 0 1).2.1
      (chars ("x := 1")) =
      ([chars ("x := 1"), chars ("a"), chars ("b")], 0, InputAction.replaced) :=
  insert_replace_spec [chars ("a"), chars ("b")] 1 (chars ("x := 1")) 1 4
    (by decide) (by decide) (by decide) (by decide) (by decide) (by decide) (by decide)

/-- First literal segment of codeTemplateForTidy (src/goblin.go:460-472),
up to the imports slot. -/
def tidyTemplateA : List Char := chars ("\npackage main\n\nimport (\n")

/-- Segment of codeTemplateForTidy between the imports slot and the
declarations slot. -/
def tidyTemplateB : List Char := chars ("\n)\n\n")

/-- Segment of codeTemplateForTidy between the declarations slot and the
statements slot. -/
def tidyTemplateC : List Char := chars ("\n\nfunc main() \x7b\n")

/-- Final literal segment of codeTemplateForTidy after the statements
slot. -/
def tidyTemplateD : List Char := chars ("\n\x7d\n")

/-- fmt.Sprintf(codeTemplateForTidy, userImports, topLevelDeclarations,
statements) (src/goblin.go:475). -/
def assembleForTidy (userImports topLevelDeclarations statements : List Char) : List Char :=
  tidyTemplateA ++ userImports ++ tidyTemplateB ++ topLevelDeclarations ++
    tidyTemplateC ++ statements ++ tidyTemplateD

/-- The literal prefix matched by mainFuncRegex (src/goblin.go:490). -/
def mainFuncLit : List Char := chars ("func main() \x7b")

/-- Match of the closing part of mainFuncRegex starting at position p of
s: a newline, then the maximal run of regexp whitespace, then a closing
brace; returns the position just after the brace. Only the maximal
whitespace run can precede the brace: a shorter run would leave a
whitespace character where the brace must be. -/
def closeAt (s : List Char) (p : Nat) : Option Nat :=
  match s.drop p with
  | '\n' :: rest =>
      match rest.dropWhile isRegexSpace with
      | '}' :: _ => some (p + 1 + (rest.takeWhile isRegexSpace).length + 1)
      | _ => none
  | _ => none

/-- The greedy dot-matches-newline capture of mainFuncRegex: the largest
position at or after k where the closing part matches. -/
def capEnd (s : List Char) (k : Nat) : Option Nat :=
  ((List.range s.length).filter
    (fun p => decide (k ≤ p) && (closeAt s p).isSome)).getLast?

/-- One match of mainFuncRegex: where it starts, where it ends, and the
text of its capture group. -/
structure MainMatch where
  startIdx : Nat
  endIdx : Nat
  capture : List Char
deriving DecidableEq, Repr

/-- The capture-and-close part of a mainFuncRegex match whose whole match
starts at i and whose capture starts at k. -/
def matchBodyAt (s : List Char) (i k : Nat) : Option MainMatch :=
  match capEnd s k with
  | some p =>
      match closeAt s p with
      | some e => some { startIdx := i, endIdx := e, capture := (s.drop k).take (p - k) }
      | none => none
  | none => none

/-- A match of mainFuncRegex at position i of s: the literal prefix, a
greedily consumed optional newline, then the greedy capture and the
closing part. -/
def matchMainAt (s : List Char) (i : Nat) : Option MainMatch :=
  if mainFuncLit.isPrefixOf (s.drop i) then
    let j := i + mainFuncLit.length
    match s.drop j with
    | '\n' :: _ =>
        match matchBodyAt s i (j + 1) with
        | some m => some m
        | none => matchBodyAt s i j
    | _ => matchBodyAt s i j
  else none

/-- mainFuncRegex.FindStringSubmatch: the leftmost match of the regexp in
s, if any. -/
def mainFuncFind (s : List Char) : Option MainMatch :=
  (List.range s.length).findSome? (fun i => matchMainAt s i)

/-- mainFuncRegex.ReplaceAllString(s, ""): repeatedly remove the leftmost
match and continue after it; the fuel argument (the length of the string)
bounds the number of removals. -/
def mainFuncReplaceAux : Nat → List Char → List Char
  | 0, s => s
  | fuel + 1, s =>
      match mainFuncFind s with
      | some m => s.take m.startIdx ++ mainFuncReplaceAux fuel (s.drop m.endIdx)
      | none => s

/-- mainFuncRegex.ReplaceAllString(s, "") (src/goblin.go:497). -/
def mainFuncReplaceAll (s : List Char) : List Char := mainFuncReplaceAux s.length s

/-- strings.Trim(x, "\n") (src/goblin.go:495): remove leading and
trailing newlines. -/
def trimNewlines (l : List Char) : List Char :=
  ((l.dropWhile (fun c => c == '\n')).reverse.dropWhile (fun c => c == '\n')).reverse

/-- Steps 3-6 of handleTidy (src/goblin.go:483-533): re-partition the
formatted source, pull the statements back out of the func main body via
mainFuncRegex (trimmed of surrounding newlines) and delete that body from
the declarations, then reassemble the final buffer: an import clause
(single-line form if exactly one import line, a parenthesized group
otherwise), the cleaned declarations, the recovered statements, the
non-empty parts joined by one blank line and split back into lines; an
entirely empty result is the empty buffer. -/
def tidyReconstruct (formattedSource : List Char) : List Line :=
  let fmtParts := separateCodeParts formattedSource
  let formattedImports := builderStr fmtParts.userImports
  let formattedTopLevel0 := builderStr fmtParts.topLevelDeclarations
  let extracted :=
    match mainFuncFind formattedTopLevel0 with
    | some m => (trimNewlines m.capture, mainFuncReplaceAll formattedTopLevel0)
    | none => ([], formattedTopLevel0)
  let importLines := splitNl (trimSpace formattedImports)
  let importPart : List (List Char) :=
    if importLines.length > 0 ∧ importLines.headI ≠ [] then
      if importLines.length = 1 then
        [chars ("import ") ++ trimSpace importLines.headI]
      else
        [chars ("import (\n") ++ joinNl importLines ++ chars ("\n)")]
    else []
  let declPart : List (List Char) :=
    if trimSpace extracted.2 ≠ [] then [trimSpace extracted.2] else []
  let stmtPart : List (List Char) :=
    if trimSpace extracted.1 ≠ [] then [trimSpace extracted.1] else []
  let finalBufferContent :=
    List.intercalate (chars ("\n\n")) (importPart ++ declPart ++ stmtPart)
  if finalBufferContent = [] then [] else splitNl finalBufferContent

/-- Embedding of handleTidy (src/goblin.go:457-534). The external
canonical formatter go/format.Source is an external collaborator, passed
as a function from source text to either an error message or the
formatted text: partition the buffer, assemble it with the tidy template,
run the formatter, propagate a formatter error unchanged, and otherwise
reconstruct the buffer from the formatted text. -/
def handleTidy (format : List Char → Except (List Char) (List Char))
    (code : List Char) : Except (List Char) (List Line) :=
  let parts := separateCodeParts code
  let fullCode := assembleForTidy (builderStr parts.userImports)
    (builderStr parts.topLevelDeclarations) (builderStr parts.statements)
  match format fullCode with
  | Except.error e => Except.error e
  | Except.ok formattedSource => Except.ok (tidyReconstruct formattedSource)

/-- Embedding of the :tidy branch of the interactive loop
(src/goblin.go:1047-1071): an empty buffer is only reported; a formatter
error is reported and the buffer is left exactly as it was; otherwise the
buffer is replaced by the tidied lines. Result: the buffer after the
command and the reported error message, if any. -/
def tidyCommand (format : List Char → Except (List Char) (List Char))
    (codeLines : List Line) : List Line × Option (List Char) :=
  if codeLines.length = 0 then (codeLines, none)
  else
    match handleTidy format (joinNl codeLines) with
    | Except.error e => (codeLines, some e)
    | Except.ok tidiedLines => (tidiedLines, none)

/-- C5: when the external formatter rejects the assembled source of a
non-empty buffer, handleTidy fails with exactly the formatter's message
(the FormatError surfaced verbatim) and the :tidy command leaves the
buffer unmodified: the buffer after the failed :tidy equals the buffer
before it. -/
theorem tidy_error_atomic (format : List Char → Except (List Char) (List Char))
    (codeLines : List Line) (e : List Char)
    (hne : codeLines ≠ [])
    (hfmt : format (assembleForTidy
        (builderStr (separateCodeParts (joinNl codeLines)).userImports)
        (builderStr (separateCodeParts (joinNl codeLines)).topLevelDeclarations)
        (builderStr (separateCodeParts (joinNl codeLines)).statements)) =
      Except.error e) :
    handleTidy format (joinNl codeLines) = Except.error e ∧
    tidyCommand format codeLines = (codeLines, some e) := by
  have h1 : handleTidy format (joinNl codeLines) = Except.error e := by
    unfold handleTidy
    dsimp only
    rw [hfmt]
  refine ⟨h1, ?_⟩
  unfold tidyCommand
  rw [if_neg (by simpa [List.length_eq_zero] using hne), h1]

/-- Witness for C5: a formatter rejecting everything with a fixed message
leaves the one-line buffer y := 1 unchanged and surfaces that message. -/
theorem tidy_error_atomic_witness :
    handleTidy (fun _ => Except.error (chars ("expected declaration")))
      (joinNl [chars ("y := 1")]) =
      Except.error (chars ("expected declaration")) ∧
    tidyCommand (fun _ => Except.error (chars ("expected declaration")))
      [chars ("y := 1")] =
      ([chars ("y := 1")], some (chars ("expected declaration"))) :=
  tidy_error_atomic (fun _ => Except.error (chars ("expected declaration")))
    [chars ("y := 1")] (chars ("expected declaration")) (by decide) rfl
